import Mathlib

/-!
Shallow embedding of the KPI extraction and synchronization pipeline
(`src/slack_client.py`, `src/kpi_sync.py`).

Text is modelled as `List Char` (Python `str` is a sequence of code points).
Machine floats appear only as Slack message timestamps; the code never does
arithmetic on them beyond ordering and formatting, so timestamps are
modelled as `Int` (whole seconds), which preserves ordering.
-/

namespace KPI

/-- The set of characters matched by Python's `\s` (and stripped by
`str.strip()`) for `str` patterns: ASCII whitespace plus the Unicode
whitespace code points. -/
def isPySpace (c : Char) : Bool :=
  decide (c.toNat = 32 ∨ (9 ≤ c.toNat ∧ c.toNat ≤ 13) ∨ (28 ≤ c.toNat ∧ c.toNat ≤ 31) ∨
    c.toNat = 133 ∨ c.toNat = 160 ∨ c.toNat = 5760 ∨
    (8192 ≤ c.toNat ∧ c.toNat ≤ 8202) ∨ c.toNat = 8232 ∨ c.toNat = 8233 ∨
    c.toNat = 8239 ∨ c.toNat = 8287 ∨ c.toNat = 12288)

/-- ASCII decimal digit, the characters matched by `\d` on the inputs of
interest.  (Python's `\d` additionally matches non-ASCII Unicode decimal
digits; those code points are outside this model.) -/
def isAsciiDigit (c : Char) : Bool :=
  decide (48 ≤ c.toNat ∧ c.toNat ≤ 57)

/-- The character class `[:\s：]` of pattern family 1 in
`SlackKPIClient._extract_kpi_values`: ASCII colon (U+003A), full-width
colon `：` (U+FF1A), or whitespace.  Note that whitespace is a member of
this class in the source regex. -/
def sepChar (c : Char) : Bool :=
  decide (c.toNat = 58 ∨ c.toNat = 65306) || isPySpace c

/-- Python `str.strip()`: remove leading and trailing whitespace. -/
def pyStrip (s : List Char) : List Char :=
  ((s.dropWhile isPySpace).reverse.dropWhile isPySpace).reverse

/-- Python string comparison (`sorted` on `str` keys): lexicographic on
code points. -/
def lexLe : List Char → List Char → Bool
  | [], _ => true
  | _ :: _, [] => false
  | a :: as, b :: bs =>
    if a.toNat < b.toNat then true
    else if b.toNat < a.toNat then false
    else lexLe as bs

/-- The optional fractional part `(?:\.\d+)?`, greedy: taken iff a dot
followed by at least one digit is present. -/
def matchFrac (s1 : List Char) : List Char × List Char :=
  match s1 with
  | c :: t =>
    if c = '.' then
      let fs := t.takeWhile isAsciiDigit
      if fs = [] then ([], s1) else ('.' :: fs, t.dropWhile isAsciiDigit)
    else ([], s1)
  | [] => ([], [])

/-- The optional unit suffix `(?:%|件|円|人|回)?`, greedy. -/
def matchUnit (s2 : List Char) : List Char × List Char :=
  match s2 with
  | c :: t => if c = '%' ∨ c = '件' ∨ c = '円' ∨ c = '人' ∨ c = '回'
              then ([c], t) else ([], s2)
  | [] => ([], [])

/-- The number part shared by all three extraction regexes:
`\d+(?:\.\d+)?(?:%|件|円|人|回)?` matched at the head of `s`.  Returns the
matched characters and the rest of the string.  The quantifiers are greedy
and, because none of the continuations can consume a digit given back by
`\d+` (or the optional groups), the match is deterministic. -/
def matchNumber (s : List Char) : Option (List Char × List Char) :=
  let ds := s.takeWhile isAsciiDigit
  if ds = [] then none
  else
    let fracPair := matchFrac (s.dropWhile isAsciiDigit)
    let unitPair := matchUnit fracPair.2
    some (ds ++ fracPair.1 ++ unitPair.1, unitPair.2)

/-- One match attempt of pattern family 1,
`([^\s:：]+)[:\s：]+(\d+(?:\.\d+)?(?:%|件|円|人|回)?)`, anchored at the head
of `s`.  The classes `[^\s:：]` and `[:\s：]` partition the alphabet and
neither includes a digit, so the backtracking search of the Python engine
is deterministic: the label is the maximal run of non-separator characters,
the separator the maximal run of separator characters, and the number must
start immediately after.  Returns `((label, value), rest)`. -/
def matchAt1 (s : List Char) : Option ((List Char × List Char) × List Char) :=
  let g1 := s.takeWhile (fun c => !sepChar c)
  let s1 := s.dropWhile (fun c => !sepChar c)
  let sep := s1.takeWhile sepChar
  let s2 := s1.dropWhile sepChar
  if g1 = [] ∨ sep = [] then none
  else
    match matchNumber s2 with
    | some (v, rest) => some ((g1, v), rest)
    | none => none

/-- One match attempt of pattern family 2,
`【([^】]+)】\s*(\d+(?:\.\d+)?(?:%|件|円|人|回)?)`, anchored at the head of
`s`.  Deterministic for the same partition reasons. -/
def matchAt2 (s : List Char) : Option ((List Char × List Char) × List Char) :=
  match s with
  | c0 :: t =>
    if c0 = '【' then
      let g1 := t.takeWhile (fun c => c ≠ '】')
      let t1 := t.dropWhile (fun c => c ≠ '】')
      if g1 = [] then none
      else
        match t1 with
        | c1 :: t2 =>
          if c1 = '】' then
            match matchNumber (t2.dropWhile isPySpace) with
            | some (v, rest) => some ((g1, v), rest)
            | none => none
          else none
        | [] => none
    else none
  | [] => none

/-- The keyword alternation `(売上|契約|アポ|架電|面談|成約)` of pattern
family 3, tried in source order at the head of `s`. -/
def matchKeyword (s : List Char) : Option (List Char × List Char) :=
  let kws : List (List Char) := [['売','上'], ['契','約'], ['ア','ポ'], ['架','電'], ['面','談'], ['成','約']]
  kws.foldr (fun k acc => if s.take 2 = k then some (k, s.drop 2) else acc) none

/-- One match attempt of pattern family 3,
`(売上|契約|アポ|架電|面談|成約)[数件率]?\s*[:\s：]*(\d+(?:\.\d+)?(?:%|件|円|人|回)?)`,
anchored at the head of `s`.  `\s*[:\s：]*` jointly consume the maximal run
of separator characters (whitespace is contained in `[:\s：]`); none of the
optional parts can free a digit for `\d+`, so the match is deterministic. -/
def matchAt3 (s : List Char) : Option ((List Char × List Char) × List Char) :=
  match matchKeyword s with
  | none => none
  | some (k, t) =>
    let t1 := match t with
      | c :: rest => if c = '数' ∨ c = '件' ∨ c = '率' then rest else t
      | [] => []
    let t2 := (t1.dropWhile isPySpace).dropWhile sepChar
    match matchNumber t2 with
    | some (v, rest) => some ((k, v), rest)
    | none => none

/-- `re.findall` for a matcher that attempts a match anchored at one
position: scan left to right, emit each leftmost match's capture groups and
resume at the match end.  `fuel` bounds the recursion; every step consumes
at least one character, so `fuel = s.length` is exact. -/
def findallAux (m : List Char → Option ((List Char × List Char) × List Char)) :
    Nat → List Char → List (List Char × List Char)
  | _, [] => []
  | 0, _ :: _ => []
  | fuel + 1, c :: rest =>
    match m (c :: rest) with
    | some (g, rest2) => g :: findallAux m fuel rest2
    | none => findallAux m fuel rest

/-- `re.findall(pattern1, s)`. -/
def findall1 (s : List Char) : List (List Char × List Char) :=
  findallAux matchAt1 s.length s

/-- `re.findall(pattern2, s)`. -/
def findall2 (s : List Char) : List (List Char × List Char) :=
  findallAux matchAt2 s.length s

/-- `re.findall(pattern3, s)`. -/
def findall3 (s : List Char) : List (List Char × List Char) :=
  findallAux matchAt3 s.length s

/-- Python `dict` assignment `d[k] = v`: overwrite in place if the key is
present (keeping its position), else append. -/
def dictUpd {β : Type} (k : List Char) (v : β) (d : List (List Char × β)) :
    List (List Char × β) :=
  if d.any (fun p => decide (p.1 = k)) then
    d.map (fun p => if p.1 = k then (k, v) else p)
  else d ++ [(k, v)]

/-- `SlackKPIClient._extract_kpi_values`: run the three pattern families in
order over the whole text and accumulate `(key.strip(), value.strip())`
into a dict. -/
def extractKpiValues (text : List Char) : List (List Char × List Char) :=
  (findall1 text ++ findall2 text ++ findall3 text).foldl
    (fun d kv => dictUpd (pyStrip kv.1) (pyStrip kv.2) d) []

/-- The literal marker `個人_` of `INDIVIDUAL_CHANNEL_PATTERN`. -/
def indivMarker : List Char := ['個', '人', '_']

/-- `SlackKPIClient.extract_person_name`: Python
`re.compile(r"^個人_(.+)$").match(name)`.  `.` does not match a newline and
`$` matches at the end of the string or just before a terminal newline, so
after the literal marker the group `(.+)` captures the maximal newline-free
run `p`, and the match succeeds iff `p` is nonempty and is followed by
nothing or by a single final newline. -/
def extractPersonName (name : List Char) : Option (List Char) :=
  if name.take 3 = indivMarker then
    let r := name.drop 3
    let p := r.takeWhile (fun c => c ≠ '\n')
    let t := r.dropWhile (fun c => c ≠ '\n')
    if p ≠ [] ∧ (t = [] ∨ t = ['\n']) then some p else none
  else none

/-- A raw Slack message as far as the pipeline reads it: the `text` field
(defaulting to `""`) and the `ts` field (seconds; fractional part not
modelled, ordering preserved). -/
structure RawMsg where
  text : List Char
  ts : Int
deriving DecidableEq

/-- `ChannelInfo` dataclass. -/
structure ChannelInfo where
  id : List Char
  name : List Char
  is_private : Bool
deriving DecidableEq

/-- `KPIMessage` dataclass. -/
structure KPIMessage where
  channel_id : List Char
  channel_name : List Char
  user_name : List Char
  timestamp : Int
  text : List Char
  kpi_values : List (List Char × List Char)
deriving DecidableEq

/-- Result of one channel's backend fetch: the messages the transport
delivered before completing or failing, and whether a `SlackApiError` was
raised.  `SlackKPIClient.get_channel_messages` catches the error and
returns whatever was accumulated, so a fetch that fails on its first
request yields `[]`. -/
structure FetchOutcome where
  msgs : List RawMsg
  failed : Bool

/-- `SlackKPIClient.get_channel_messages`: up to `limit` messages from the
backend; a `SlackApiError` is swallowed (the `failed` flag is never
inspected by any caller). -/
def getChannelMessages (fetch : List Char → FetchOutcome) (channelId : List Char)
    (limit : Nat) : List RawMsg :=
  ((fetch channelId).msgs).take limit

/-- `SlackKPIClient.parse_kpi_message`: drop the message iff it has no
extracted KPI values and its text strips to empty; otherwise build a
`KPIMessage`, with the person falling back to the full channel name when
the name does not match the `個人_` convention (`extract_person_name(...)
or channel_info.name`; the captured group is never the empty string). -/
def parseKpiMessage (msg : RawMsg) (channelInfo : ChannelInfo) : Option KPIMessage :=
  let kpiValues := extractKpiValues msg.text
  if kpiValues = [] ∧ pyStrip msg.text = [] then none
  else some
    { channel_id := channelInfo.id
      channel_name := channelInfo.name
      user_name := (extractPersonName channelInfo.name).getD channelInfo.name
      timestamp := msg.ts
      text := msg.text
      kpi_values := kpiValues }

/-- The parsing stage of `SlackKPIClient.get_kpi_data_from_channel`: keep
every message that parses to a `KPIMessage`. -/
def parseChannelMessages (channelInfo : ChannelInfo) (msgs : List RawMsg) :
    List KPIMessage :=
  msgs.filterMap (fun m => parseKpiMessage m channelInfo)

/-- `SlackKPIClient.get_kpi_data_from_channel`. -/
def getKpiDataFromChannel (fetch : List Char → FetchOutcome)
    (channelInfo : ChannelInfo) (limit : Nat) : List KPIMessage :=
  parseChannelMessages channelInfo (getChannelMessages fetch channelInfo.id limit)

/-- `SlackKPIClient.get_individual_channels`: the channels whose name
matches `INDIVIDUAL_CHANNEL_PATTERN`. -/
def getIndividualChannels (channels : List ChannelInfo) : List ChannelInfo :=
  channels.filter (fun ch => (extractPersonName ch.name).isSome)

/-- `SlackKPIClient.get_all_individual_kpi_data`: a dict keyed by person
name; a truthiness check (`if person_name:`) guards the dict assignment. -/
def getAllIndividualKpiData (channels : List ChannelInfo)
    (fetch : List Char → FetchOutcome) (limit : Nat) :
    List (List Char × List KPIMessage) :=
  (getIndividualChannels channels).foldl
    (fun acc ch =>
      match extractPersonName ch.name with
      | some p => if p = [] then acc
                  else dictUpd p (getKpiDataFromChannel fetch ch limit) acc
      | none => acc)
    []

/-- `KPISynchronizer.OVERVIEW_SHEET`. -/
def overviewSheetName : List Char := "KPI概要".data

/-- `f"{DETAIL_SHEET_PREFIX}{person_name}"`. -/
def detailSheetNameOf (person : List Char) : List Char := "詳細_".data ++ person

/-- The statistics dict returned by the sync operations. -/
structure SyncStats where
  channels_processed : Nat
  messages_synced : Nat
  errors : Nat
deriving DecidableEq

/-- Python `max(messages, key=...)` over `first :: rest`: keeps the first
maximal element (a later element replaces the current one only when its
key is strictly greater). -/
def pyMaxBy {α : Type} (key : α → Int) (first : α) (rest : List α) : α :=
  rest.foldl (fun acc x => if key acc < key x then x else acc) first

/-- Stand-in for `datetime.strftime("%Y-%m-%d %H:%M:%S")` on a message
timestamp.  The calendar/locale rendering of the Python standard library
is not modelled bit-for-bit; every claim verified in this file depends
only on the rendered cell being a function of the timestamp. -/
def formatTs (t : Int) : List Char := Nat.toDigits 10 t.toNat

/-- Header row of `_prepare_overview_data`. -/
def overviewHeaders : List (List Char) :=
  ["氏名".data, "チャンネル名".data, "メッセージ数".data,
   "最新メッセージ日時".data, "最新メッセージ内容".data, "同期日時".data]

/-- One data row of `_prepare_overview_data` for `(person, messages)`.
`now` is the wall-clock string the Python code obtains from
`datetime.now().strftime(...)` inside the builder. -/
def mkOverviewRow (now : List Char) (pm : List Char × List KPIMessage) :
    List (List Char) :=
  let latestPair : List Char × List Char :=
    match pm.2 with
    | [] => (['-'], ['-'])
    | m :: ms =>
      let lm := pyMaxBy (fun x => x.timestamp) m ms
      (formatTs lm.timestamp,
       if 200 < lm.text.length then lm.text.take 200 ++ ['.', '.', '.'] else lm.text)
  [pm.1, indivMarker ++ pm.1, Nat.toDigits 10 pm.2.length,
   latestPair.1, latestPair.2, now]

/-- `sorted(kpi_data.items())`: Python sorts the `(key, value)` tuples,
which on the distinct keys of a dict orders by the key string
(code-point lexicographic); value comparison is never reached. -/
def sortByKey {β : Type} (d : List (List Char × β)) : List (List Char × β) :=
  d.mergeSort (fun a b => lexLe a.1 b.1)

/-- `KPISynchronizer._prepare_overview_data`.  `now` is the ambient clock
reading (`datetime.now()` formatted), taken inside the Python builder. -/
def prepareOverviewData (now : List Char)
    (kpiData : List (List Char × List KPIMessage)) : List (List (List Char)) :=
  overviewHeaders :: (sortByKey kpiData).map (mkOverviewRow now)

/-- Header row of `_prepare_detail_data`. -/
def detailHeaders : List (List Char) :=
  ["日時".data, "メッセージ内容".data, "抽出KPI".data]

/-- `", ".join(f"{k}: {v}" for k, v in kpi_values.items())`. -/
def joinKpi (kvs : List (List Char × List Char)) : List Char :=
  List.intercalate [',', ' '] (kvs.map (fun kv => kv.1 ++ [':', ' '] ++ kv.2))

/-- One data row of `_prepare_detail_data`. -/
def mkDetailRow (m : KPIMessage) : List (List Char) :=
  [formatTs m.timestamp, m.text,
   if m.kpi_values = [] then ['-'] else joinKpi m.kpi_values]

/-- `KPISynchronizer._prepare_detail_data`: header, then rows sorted by
timestamp descending (`sorted(..., reverse=True)`, a stable sort).  The
`person_name` argument is accepted and unused, as in the source. -/
def prepareDetailData (personName : List Char) (messages : List KPIMessage) :
    List (List (List Char)) :=
  detailHeaders ::
    (messages.mergeSort (fun a b => decide (b.timestamp ≤ a.timestamp))).map mkDetailRow

/-- `KPISynchronizer.sync_all_individual_kpi`, abstracted over the backend:
`fetch` is the message transport and `writeOk` tells, per sheet name,
whether `sheets_client.write_data` succeeds.  `channels_processed` is set
to the size of the whole data dict iff the overview write succeeds;
`errors` counts only failed detail-sheet writes; a per-channel fetch
failure is invisible here (swallowed inside `get_channel_messages`). -/
def syncAllIndividualKpi (channels : List ChannelInfo)
    (fetch : List Char → FetchOutcome) (writeOk : List Char → Bool)
    (limit : Nat) (createDetailSheets : Bool) : SyncStats :=
  let allData := getAllIndividualKpiData channels fetch limit
  if allData = [] then ⟨0, 0, 0⟩
  else
    let cp := if writeOk overviewSheetName then allData.length else 0
    let msErr : Nat × Nat :=
      if createDetailSheets then
        allData.foldl
          (fun acc pm =>
            if pm.2 = [] then acc
            else if writeOk (detailSheetNameOf pm.1) then (acc.1 + pm.2.length, acc.2)
            else (acc.1, acc.2 + 1))
          (0, 0)
      else (0, 0)
    ⟨cp, msErr.1, msErr.2⟩

/-- The per-channel key computation of `KPISynchronizer.sync_specific_channels`:
`person_name = self.slack_client.extract_person_name(name) or name` (Python
`or` also rejects an empty extracted string). -/
def specificPersonKey (name : List Char) : List Char :=
  match extractPersonName name with
  | some p => if p = [] then name else p
  | none => name

/-- The status dict of `KPISynchronizer.get_sync_status`. -/
structure SyncStatus where
  last_sync : Option (List Char)
  channels_synced : Nat
  total_messages : Nat
deriving DecidableEq

/-- The Unicode decimal-digit code points (category Nd) as closed ranges,
from the CPython Unicode tables: exactly the characters accepted by
`str.isdecimal()` and converted digit-wise by `int()`.  Every merged range
is a concatenation of aligned 0–9 blocks, so a character's digit value is
`(codepoint - rangeStart) % 10`. -/
def decimalRanges : List (Nat × Nat) :=
  [(48, 57), (1632, 1641), (1776, 1785), (1984, 1993),
   (2406, 2415), (2534, 2543), (2662, 2671), (2790, 2799),
   (2918, 2927), (3046, 3055), (3174, 3183), (3302, 3311),
   (3430, 3439), (3558, 3567), (3664, 3673), (3792, 3801),
   (3872, 3881), (4160, 4169), (4240, 4249), (6112, 6121),
   (6160, 6169), (6470, 6479), (6608, 6617), (6784, 6793),
   (6800, 6809), (6992, 7001), (7088, 7097), (7232, 7241),
   (7248, 7257), (42528, 42537), (43216, 43225), (43264, 43273),
   (43472, 43481), (43504, 43513), (43600, 43609), (44016, 44025),
   (65296, 65305), (66720, 66729), (68912, 68921), (69734, 69743),
   (69872, 69881), (69942, 69951), (70096, 70105), (70384, 70393),
   (70736, 70745), (70864, 70873), (71248, 71257), (71360, 71369),
   (71472, 71481), (71904, 71913), (72016, 72025), (72784, 72793),
   (73040, 73049), (73120, 73129), (92768, 92777), (92864, 92873),
   (93008, 93017), (120782, 120831), (123200, 123209), (123632, 123641),
   (125264, 125273), (130032, 130041)]

/-- The code points for which `str.isdigit()` is true but which are not
decimal digits (Numeric_Type=Digit: superscripts such as `²`, subscripts,
circled digits, ...).  `int()` raises `ValueError` on these. -/
def digitOnlyRanges : List (Nat × Nat) :=
  [(178, 179), (185, 185), (4969, 4977), (6618, 6618),
   (8304, 8304), (8308, 8313), (8320, 8329), (9312, 9320),
   (9332, 9340), (9352, 9360), (9450, 9450), (9461, 9469),
   (9471, 9471), (10102, 10110), (10112, 10120), (10122, 10130),
   (68160, 68163), (69216, 69224), (69714, 69722), (127232, 127242)]

/-- `str.isdecimal()` on one character: a Unicode decimal digit. -/
def isPyDecimal (c : Char) : Bool :=
  decimalRanges.any (fun r => decide (r.1 ≤ c.toNat ∧ c.toNat ≤ r.2))

/-- `str.isdigit()` on one character: a decimal digit or a
Numeric_Type=Digit character. -/
def isPyDigitChar (c : Char) : Bool :=
  isPyDecimal c || digitOnlyRanges.any (fun r => decide (r.1 ≤ c.toNat ∧ c.toNat ≤ r.2))

/-- Python `str.isdigit()`: nonempty and every character a digit.  Note
that this includes non-decimal digit characters such as `²`, on which
`int()` later raises. -/
def strIsDigit (s : List Char) : Bool :=
  !s.isEmpty && s.all isPyDigitChar

/-- The numeric value of a decimal-digit character. -/
def pyDecimalVal (c : Char) : Nat :=
  ((decimalRanges.find? (fun r => decide (r.1 ≤ c.toNat ∧ c.toNat ≤ r.2))).map
    (fun r => (c.toNat - r.1) % 10)).getD 0

/-- The base-10 value `int(s)` computes when it succeeds. -/
def pyIntVal (s : List Char) : Nat :=
  s.foldl (fun acc c => 10 * acc + pyDecimalVal c) 0

/-- `int(s)` applied to a string that passed `str.isdigit()`: succeeds iff
every character is a decimal digit, computing the base-10 value; a
digit-but-not-decimal character (e.g. `²`) makes `int()` raise
`ValueError`.  (`int()` also tolerates signs, whitespace and underscores,
but no such character passes `isdigit`, so that path is unreachable
here.) -/
def pyInt (s : List Char) : Except Unit Nat :=
  if s.all isPyDecimal then .ok (pyIntVal s) else .error ()

/-- One step of the generator
`sum(int(row[2]) for row in data[1:] if len(row) > 2 and row[2].isdigit())`:
rows failing the guard add nothing; an included row adds `int(row[2])`,
and a raised `ValueError` aborts the whole sum. -/
def sumStep (acc : Except Unit Nat) (row : List (List Char)) : Except Unit Nat :=
  match acc with
  | .error e => .error e
  | .ok n =>
    if 2 < row.length ∧ strIsDigit (row.getD 2 []) = true then
      match pyInt (row.getD 2 []) with
      | .ok v => .ok (n + v)
      | .error e => .error e
    else .ok n

/-- The lazily evaluated, left-to-right sum over the data rows. -/
def sumCounts (rows : List (List (List Char))) : Except Unit Nat :=
  rows.foldl sumStep (.ok 0)

/-- `KPISynchronizer.get_sync_status`.  The argument is the outcome of
`sheets_client.read_data(OVERVIEW_SHEET)`: `.ok rows` when the read
returns a row list (an `HttpError` is already converted to `[]` inside
`read_data`), `.error` when the read raises, which the surrounding
`try/except` turns into the default status.  `channels_synced` and
`last_sync` are assigned before the sum, so when `int()` raises inside the
sum the `except` leaves them set and `total_messages` at its default 0. -/
def getSyncStatus (readResult : Except Unit (List (List (List Char)))) : SyncStatus :=
  match readResult with
  | .error _ => ⟨none, 0, 0⟩
  | .ok data =>
    if 1 < data.length then
      let firstRow := data.getD 1 []
      let lastSync := if 6 ≤ firstRow.length then firstRow.get? 5 else none
      match sumCounts (data.drop 1) with
      | .ok total => ⟨lastSync, data.length - 1, total⟩
      | .error _ => ⟨lastSync, data.length - 1, 0⟩
    else ⟨none, 0, 0⟩

/-- Test fixture: three individual channels A, B, C. -/
def chanA : ChannelInfo := ⟨"CA".data, "個人_A".data, false⟩

def chanB : ChannelInfo := ⟨"CB".data, "個人_B".data, false⟩

def chanC : ChannelInfo := ⟨"CC".data, "個人_C".data, false⟩

/-- Test fixture backend: channels A and C deliver their message lists;
any other channel (in particular B) raises on its first request, so the
client's catch yields zero messages for it. -/
def fetchBFails (mA mC : List RawMsg) : List Char → FetchOutcome := fun cid =>
  if cid = "CA".data then ⟨mA, false⟩
  else if cid = "CC".data then ⟨mC, false⟩
  else ⟨[], true⟩

/-! ## Shared helper lemmas -/

theorem takeWhile_append_all {α : Type} {p : α → Bool} {l1 : List α} (l2 : List α)
    (h : ∀ c ∈ l1, p c = true) :
    (l1 ++ l2).takeWhile p = l1 ++ l2.takeWhile p := by
  induction l1 with
  | nil => rfl
  | cons a l ih =>
    have ha : p a = true := h a (List.mem_cons_self a l)
    simp only [List.cons_append, List.takeWhile_cons, ha, if_true]
    exact congrArg (a :: ·) (ih (fun c hc => h c (List.mem_cons_of_mem a hc)))

theorem dropWhile_append_all {α : Type} {p : α → Bool} {l1 : List α} (l2 : List α)
    (h : ∀ c ∈ l1, p c = true) :
    (l1 ++ l2).dropWhile p = l2.dropWhile p := by
  induction l1 with
  | nil => rfl
  | cons a l ih =>
    have ha : p a = true := h a (List.mem_cons_self a l)
    simp only [List.cons_append, List.dropWhile_cons, ha, if_true]
    exact ih (fun c hc => h c (List.mem_cons_of_mem a hc))

theorem digit_not_sep {c : Char} (h : isAsciiDigit c = true) : sepChar c = false := by
  simp only [isAsciiDigit, decide_eq_true_eq] at h
  simp only [sepChar, isPySpace, Bool.or_eq_false_iff, decide_eq_false_iff_not]
  omega

theorem space_is_sep : sepChar ' ' = true := by decide

theorem space_sep {c : Char} (h : isPySpace c = true) : sepChar c = true := by
  simp [sepChar, h]

/-! ## C2: channel classifier and person-name extraction -/

/-- C2, counterexample.  The claim states that the classifier accepts
every string starting with `個人_` followed by at least one character and
that `extract_person_name` then returns the whole remainder.  The string
`"個人_a\nb"` starts with the marker followed by the nonempty remainder
`"a\nb"`, yet the Python regex `^個人_(.+)$` rejects it (`.` does not match
a newline and `$` only matches at the end or before one terminal newline),
so `extract_person_name` returns `None`. -/
theorem C2_counterexample :
    "個人_a\nb".data = indivMarker ++ ['a', '\n', 'b'] ∧
    (['a', '\n', 'b'] : List Char) ≠ [] ∧
    extractPersonName "個人_a\nb".data = none := by decide

/-- C2 (amended): restricted to channel names containing no newline
character, the classifier accepts `n` iff `n` is the marker `個人_`
followed by at least one character, and `extract_person_name` then returns
exactly the whole remainder, and `None` otherwise.  (On names with a
newline, the Python pattern `^個人_(.+)$` instead captures the maximal
newline-free run after the marker and accepts only when it is followed by
nothing or one final newline.)  Totality over arbitrary strings holds by
construction of `extractPersonName`. -/
theorem C2_amended (name : List Char) (hnl : '\n' ∉ name) (r : List Char) :
    extractPersonName name = some r ↔ name = indivMarker ++ r ∧ r ≠ [] := by
  simp only [extractPersonName]
  by_cases h3 : name.take 3 = indivMarker
  · have hsplit : name = indivMarker ++ name.drop 3 := by
      conv_lhs => rw [← List.take_append_drop 3 name]
      rw [h3]
    have hmem : ∀ x ∈ name.drop 3, x ≠ '\n' :=
      fun x hx he => hnl (he ▸ List.mem_of_mem_drop hx)
    have htw : (name.drop 3).takeWhile (fun c => decide (c ≠ '\n')) = name.drop 3 :=
      List.takeWhile_eq_self_iff.mpr (fun x hx => by simp [hmem x hx])
    have hdw : (name.drop 3).dropWhile (fun c => decide (c ≠ '\n')) = [] :=
      List.dropWhile_eq_nil_iff.mpr (fun x hx => by simp [hmem x hx])
    rw [if_pos h3, htw, hdw]
    by_cases hr : name.drop 3 = []
    · rw [if_neg (by simp [hr])]
      constructor
      · intro hfalse; exact absurd hfalse (by simp)
      · rintro ⟨h1, h2⟩
        exact absurd (List.append_cancel_left ((hr ▸ hsplit : name = indivMarker ++ []) ▸ h1 :
          indivMarker ++ [] = indivMarker ++ r)) (fun he => h2 he.symm)
    · rw [if_pos (by simp [hr])]
      constructor
      · intro hsome
        have := Option.some.inj hsome
        exact ⟨this ▸ hsplit, this ▸ hr⟩
      · rintro ⟨h1, _⟩
        exact congrArg some (List.append_cancel_left (hsplit ▸ h1 :
          indivMarker ++ name.drop 3 = indivMarker ++ r))
  · rw [if_neg h3]
    constructor
    · intro hfalse; exact absurd hfalse (by simp)
    · rintro ⟨h1, _⟩
      refine absurd ?_ h3
      rw [h1]
      exact List.take_left indivMarker r

/-- C2 witness: the amended theorem applied to `"個人_田中"`. -/
theorem C2_witness :
    ('\n' ∉ "個人_田中".data) ∧
    extractPersonName "個人_田中".data = some ['田', '中'] :=
  ⟨by decide, (C2_amended "個人_田中".data (by decide) ['田', '中']).mpr (by decide)⟩

/-! ## C9: fallback to the full channel name -/

/-- C9: when the originating channel name does not match the `個人_`
convention, `parse_kpi_message` assigns the full channel name as the
record's person identifier (`user_name`), and the grouping key computed in
`sync_specific_channels` (`extract_person_name(name) or name`) is the full
channel name as well. -/
theorem C9_person_fallback (msg : RawMsg) (ch : ChannelInfo)
    (h : extractPersonName ch.name = none) :
    (∀ rec, parseKpiMessage msg ch = some rec → rec.user_name = ch.name) ∧
    specificPersonKey ch.name = ch.name := by
  constructor
  · intro rec hrec
    unfold parseKpiMessage at hrec
    by_cases hc : extractKpiValues msg.text = [] ∧ pyStrip msg.text = []
    · rw [if_pos hc] at hrec
      exact absurd hrec (by simp)
    · rw [if_neg hc] at hrec
      rw [← Option.some.inj hrec]
      simp [h]
  · unfold specificPersonKey
    rw [h]

/-- C9 witness: a message in the channel `general` (not matching the
convention) is parsed with `user_name = "general"`, and the explicit-list
sync key for `"general"` is `"general"`. -/
theorem C9_witness :
    extractPersonName "general".data = none ∧
    KPIMessage.user_name
      { channel_id := ['C'], channel_name := "general".data,
        user_name := "general".data, timestamp := 0,
        text := "売上: 5".data, kpi_values := [(['売', '上'], ['5'])] } = "general".data ∧
    specificPersonKey "general".data = "general".data :=
  ⟨by decide,
   (C9_person_fallback ⟨"売上: 5".data, 0⟩ ⟨['C'], "general".data, false⟩ (by decide)).1
     { channel_id := ['C'], channel_name := "general".data,
       user_name := "general".data, timestamp := 0,
       text := "売上: 5".data, kpi_values := [(['売', '上'], ['5'])] } (by decide),
   (C9_person_fallback ⟨"売上: 5".data, 0⟩ ⟨['C'], "general".data, false⟩ (by decide)).2⟩

/-! ## C10: empty-record persons still get an overview row -/

/-- C10: a person whose record sequence is empty still receives an
overview data row, with message count `"0"` and the literal placeholder
`"-"` in both the latest-timestamp and latest-text columns. -/
theorem C10_empty_record_row (now p : List Char)
    (d : List (List Char × List KPIMessage)) (h : (p, ([] : List KPIMessage)) ∈ d) :
    mkOverviewRow now (p, []) = [p, indivMarker ++ p, ['0'], ['-'], ['-'], now] ∧
    [p, indivMarker ++ p, ['0'], ['-'], ['-'], now] ∈ (prepareOverviewData now d).tail := by
  have hrow : mkOverviewRow now (p, ([] : List KPIMessage)) =
      [p, indivMarker ++ p, ['0'], ['-'], ['-'], now] := by
    simp [mkOverviewRow]
    rfl
  refine ⟨hrow, ?_⟩
  have hmem : (p, ([] : List KPIMessage)) ∈ sortByKey d :=
    ((List.mergeSort_perm d _).mem_iff).mpr h
  show _ ∈ (sortByKey d).map (mkOverviewRow now)
  exact hrow ▸ List.mem_map_of_mem (mkOverviewRow now) hmem

/-- C10 witness at a one-person record set. -/
theorem C10_witness :
    ((['x'], ([] : List KPIMessage)) ∈ [((['x'] : List Char), ([] : List KPIMessage))]) ∧
    mkOverviewRow ['T'] (['x'], []) =
      [['x'], indivMarker ++ ['x'], ['0'], ['-'], ['-'], ['T']] ∧
    [['x'], indivMarker ++ ['x'], ['0'], ['-'], ['-'], ['T']] ∈
      (prepareOverviewData ['T'] [(['x'], [])]).tail :=
  ⟨by decide,
   (C10_empty_record_row ['T'] ['x'] [(['x'], [])] (by decide)).1,
   (C10_empty_record_row ['T'] ['x'] [(['x'], [])] (by decide)).2⟩

/-! ## C5: fully-empty messages leave no trace -/

/-- C5: a raw message whose text strips to empty and whose extracted KPI
mapping is empty yields no `KPIMessage`, and inserting such a message
anywhere in a channel's raw message list leaves the parsed record list —
hence every table built from the per-person record sets — unchanged. -/
theorem C5_dropped_message (msg : RawMsg) (ch : ChannelInfo)
    (h1 : extractKpiValues msg.text = []) (h2 : pyStrip msg.text = []) :
    parseKpiMessage msg ch = none ∧
    ∀ pre post, parseChannelMessages ch (pre ++ msg :: post) =
      parseChannelMessages ch (pre ++ post) := by
  have hnone : parseKpiMessage msg ch = none := by
    unfold parseKpiMessage
    rw [if_pos ⟨h1, h2⟩]
  refine ⟨hnone, fun pre post => ?_⟩
  simp [parseChannelMessages, List.filterMap_append, List.filterMap_cons, hnone]

/-- C5 witness: a whitespace-only message among real messages. -/
theorem C5_witness :
    extractKpiValues " ".data = [] ∧ pyStrip " ".data = [] ∧
    parseKpiMessage ⟨" ".data, 0⟩ ⟨['C'], ['n'], false⟩ = none ∧
    parseChannelMessages ⟨['C'], ['n'], false⟩ [⟨['a'], 1⟩, ⟨" ".data, 0⟩] =
      parseChannelMessages ⟨['C'], ['n'], false⟩ [⟨['a'], 1⟩] :=
  ⟨by decide, by decide,
   (C5_dropped_message ⟨" ".data, 0⟩ ⟨['C'], ['n'], false⟩ (by decide) (by decide)).1,
   (C5_dropped_message ⟨" ".data, 0⟩ ⟨['C'], ['n'], false⟩ (by decide) (by decide)).2
     [⟨['a'], 1⟩] []⟩

/-! ## C7: determinism of the table builders and the ambient clock -/

/-- C7, counterexample.  The claim says the builders are pure functions of
their input plus an explicit, injectable current-time parameter, so that
two calls with identical input records and the same injected sync-time are
byte-identical.  In the code `_prepare_overview_data` takes no time
parameter at all: it reads `datetime.now()` from the ambient clock inside
the builder.  Two calls with identical input records (here one person with
no records) but different ambient clock readings produce different tables
— the table is not a function of the input records, and there is no
parameter by which the time could be injected. -/
theorem C7_counterexample :
    prepareOverviewData "00:00:00".data [(['a'], [])] ≠
      prepareOverviewData "00:00:01".data [(['a'], [])] := by
  intro h
  have h1 := congrArg (fun t => (t.getD 1 []).getD 5 []) h
  simp only [prepareOverviewData, sortByKey, List.mergeSort_singleton, List.map_cons,
    List.map_nil, List.getD_cons_succ, List.getD_cons_zero, mkOverviewRow] at h1
  exact absurd h1 (by decide)

/-- C7 (amended): the detail builder takes no clock at all, so it is
deterministic in its input alone (definitionally: `prepareDetailData` is a
function of `messages` only).  The overview builder reads the wall clock
internally (`datetime.now()`), not via an injectable parameter; two calls
with identical input records agree on every cell except possibly the
sync-time column, and every data row's sync-time cell is exactly the
ambient clock reading of that call. -/
theorem C7_amended (t1 t2 : List Char) (d : List (List Char × List KPIMessage)) :
    (prepareOverviewData t1 d).map List.dropLast =
      (prepareOverviewData t2 d).map List.dropLast ∧
    (prepareOverviewData t1 d).tail.map (fun r => r.getLast?) =
      List.replicate d.length (some t1) := by
  constructor
  · simp only [prepareOverviewData, List.map_cons, List.map_map]
    refine congrArg (List.dropLast overviewHeaders :: ·) ?_
    refine List.map_congr_left (fun pm _ => ?_)
    rcases pm with ⟨p, ms⟩
    cases ms <;> simp [mkOverviewRow]
  · simp only [prepareOverviewData, List.tail_cons, List.map_map]
    have hconst : (sortByKey d).map (fun pm => (mkOverviewRow t1 pm).getLast?) =
        (sortByKey d).map (fun _ => some t1) := by
      refine List.map_congr_left (fun pm _ => ?_)
      rcases pm with ⟨p, ms⟩
      cases ms <;> simp [mkOverviewRow]
    have hlen : (sortByKey d).length = d.length := by
      simp [sortByKey, List.length_mergeSort]
    calc (sortByKey d).map (fun pm => (mkOverviewRow t1 pm).getLast?)
        = (sortByKey d).map (fun _ => some t1) := hconst
      _ = List.replicate d.length (some t1) := by
          rw [List.map_const', hlen]

/-! ## C6: overview shape and ordering -/

theorem lexLe_cons (x y : Char) (xs ys : List Char) :
    lexLe (x :: xs) (y :: ys) = true ↔
      x.toNat < y.toNat ∨ (x.toNat = y.toNat ∧ lexLe xs ys = true) := by
  simp only [lexLe]
  by_cases h1 : x.toNat < y.toNat
  · simp [h1]
  · by_cases h2 : y.toNat < x.toNat
    · rw [if_neg h1, if_pos h2]
      constructor
      · intro hfalse; exact absurd hfalse (by simp)
      · rintro (h | ⟨he, _⟩) <;> omega
    · rw [if_neg h1, if_neg h2]
      constructor
      · intro h; exact Or.inr ⟨by omega, h⟩
      · rintro (h | ⟨_, h⟩)
        · omega
        · exact h

theorem lexLe_trans : ∀ a b c : List Char,
    lexLe a b = true → lexLe b c = true → lexLe a c = true := by
  intro a
  induction a with
  | nil => intro b c _ _; rfl
  | cons x xs ih =>
    intro b c h1 h2
    cases b with
    | nil => exact absurd h1 (by simp [lexLe])
    | cons y ys =>
      cases c with
      | nil => exact absurd h2 (by simp [lexLe])
      | cons z zs =>
        rw [lexLe_cons] at h1 h2 ⊢
        rcases h1 with h1 | ⟨he1, h1⟩
        · rcases h2 with h2 | ⟨he2, _⟩
          · exact Or.inl (by omega)
          · exact Or.inl (by omega)
        · rcases h2 with h2 | ⟨he2, h2⟩
          · exact Or.inl (by omega)
          · exact Or.inr ⟨by omega, ih ys zs h1 h2⟩

theorem lexLe_total : ∀ a b : List Char,
    (lexLe a b || lexLe b a) = true := by
  intro a
  induction a with
  | nil => intro b; simp [lexLe]
  | cons x xs ih =>
    intro b
    cases b with
    | nil => simp [lexLe]
    | cons y ys =>
      rcases Bool.or_eq_true_iff.mp (ih ys) with h | h
      · by_cases hxy : x.toNat < y.toNat
        · exact Bool.or_eq_true_iff.mpr (Or.inl ((lexLe_cons x y xs ys).mpr (Or.inl hxy)))
        · by_cases hyx : y.toNat < x.toNat
          · exact Bool.or_eq_true_iff.mpr
              (Or.inr ((lexLe_cons y x ys xs).mpr (Or.inl hyx)))
          · exact Bool.or_eq_true_iff.mpr
              (Or.inl ((lexLe_cons x y xs ys).mpr (Or.inr ⟨by omega, h⟩)))
      · by_cases hyx : y.toNat < x.toNat
        · exact Bool.or_eq_true_iff.mpr (Or.inr ((lexLe_cons y x ys xs).mpr (Or.inl hyx)))
        · by_cases hxy : x.toNat < y.toNat
          · exact Bool.or_eq_true_iff.mpr
              (Or.inl ((lexLe_cons x y xs ys).mpr (Or.inl hxy)))
          · exact Bool.or_eq_true_iff.mpr
              (Or.inr ((lexLe_cons y x ys xs).mpr (Or.inr ⟨by omega, h⟩)))

/-- C6: for every per-person record mapping, the overview table has the
fixed six-column header as row 0, exactly one data row per person (the
data rows' first cells are exactly the sorted person keys, a permutation
of the mapping's keys), and the data rows appear sorted by person
identifier in ascending code-point-lexicographic order; concretely, the
persons 田中, 鈴木, 佐藤 produce data rows in the order 佐藤, 田中, 鈴木. -/
theorem C6_overview_sorted :
    (∀ (now : List Char) (d : List (List Char × List KPIMessage)),
      (prepareOverviewData now d).head? = some overviewHeaders ∧
      (prepareOverviewData now d).tail.length = d.length ∧
      (prepareOverviewData now d).tail.map (fun r => r.getD 0 []) =
        (sortByKey d).map (fun pm => pm.1) ∧
      ((sortByKey d).map (fun pm => pm.1)).Perm (d.map (fun pm => pm.1)) ∧
      ((sortByKey d).map (fun pm => pm.1)).Pairwise (fun a b => lexLe a b = true)) ∧
    ((prepareOverviewData ['T']
        [(['田', '中'], []), (['鈴', '木'], []), (['佐', '藤'], [])]).tail.map
      (fun r => r.getD 0 [])) = [['佐', '藤'], ['田', '中'], ['鈴', '木']] := by
  have hmain : ∀ (now : List Char) (d : List (List Char × List KPIMessage)),
      (prepareOverviewData now d).head? = some overviewHeaders ∧
      (prepareOverviewData now d).tail.length = d.length ∧
      (prepareOverviewData now d).tail.map (fun r => r.getD 0 []) =
        (sortByKey d).map (fun pm => pm.1) ∧
      ((sortByKey d).map (fun pm => pm.1)).Perm (d.map (fun pm => pm.1)) ∧
      ((sortByKey d).map (fun pm => pm.1)).Pairwise (fun a b => lexLe a b = true) := by
    intro now d
    refine ⟨rfl, ?_, ?_, ?_, ?_⟩
    · simp [prepareOverviewData, sortByKey, List.length_mergeSort]
    · simp only [prepareOverviewData, List.tail_cons, List.map_map]
      refine List.map_congr_left (fun pm _ => ?_)
      rcases pm with ⟨p, ms⟩
      cases ms <;> simp [mkOverviewRow]
    · exact (List.mergeSort_perm d _).map (fun pm => pm.1)
    · refine List.Pairwise.map (fun pm : List Char × List KPIMessage => pm.1)
        (fun a b h => h) ?_
      exact List.sorted_mergeSort
        (fun a b c hab hbc => lexLe_trans a.1 b.1 c.1 hab hbc)
        (fun a b => lexLe_total a.1 b.1) d
  refine ⟨hmain, ?_⟩
  rw [(hmain ['T'] _).2.2.1]
  norm_num [sortByKey, List.mergeSort, List.merge,
    show lexLe ['田', '中'] ['鈴', '木'] = true from by decide,
    show lexLe ['田', '中'] ['佐', '藤'] = false from by decide,
    show lexLe ['鈴', '木'] ['佐', '藤'] = false from by decide]

/-! ## C3: pattern family 1 does not require a colon -/

/-- C3, counterexample.  The claim states that pattern family 1 extracts a
pair only when the label is followed by a colon-like separator before the
number, and that a word followed by a number with only whitespace between
them yields no pair.  The source regex's separator class is `[:\s：]+`,
which whitespace alone satisfies: on `"foo 5"` (word, space, number, no
colon anywhere) pattern family 1 extracts the pair `("foo", "5")`, and so
does the whole extractor. -/
theorem C3_counterexample :
    findall1 "foo 5".data = [("foo".data, ['5'])] ∧
    extractKpiValues "foo 5".data = [("foo".data, ['5'])] := by decide

/-- C3 (amended): in pattern family 1 the separator between the label and
the number is `[:\s：]+` — one or more characters from the class {ASCII
colon, full-width colon, whitespace} — so no colon is required: for every
text consisting of a nonempty word of non-separator characters, followed
by a nonempty run of whitespace characters (no colon anywhere), followed
by a nonempty digit string, pattern family 1 extracts from it exactly the
pair (word, digits).  (Inside a larger text, whether a given such
occurrence yields a pair additionally depends on `findall`'s left-to-right
scan — e.g. `findall1 "a 5 6" = [("a", "5")]`, where the occurrence
`"5" "6"` yields nothing because `"5"` was already consumed as the
previous match's value — so the per-occurrence universal of the original
claim is replaced by this whole-text statement.) -/
theorem C3_amended (w ws d : List Char) (hw : w ≠ [])
    (hwc : ∀ c ∈ w, sepChar c = false) (hws : ws ≠ [])
    (hwsc : ∀ c ∈ ws, isPySpace c = true) (hd : d ≠ [])
    (hdc : ∀ c ∈ d, isAsciiDigit c = true) :
    findall1 (w ++ ws ++ d) = [(w, d)] := by
  obtain ⟨s0, ws2, rfl⟩ : ∃ s0 ws2, ws = s0 :: ws2 := by
    cases ws with
    | nil => exact absurd rfl hws
    | cons s0 ws2 => exact ⟨s0, ws2, rfl⟩
  have hs0 : sepChar s0 = true := space_sep (hwsc s0 (List.mem_cons_self s0 ws2))
  have hws2 : ∀ c ∈ ws2, sepChar c = true :=
    fun c hc => space_sep (hwsc c (List.mem_cons_of_mem s0 hc))
  have htwd : d.takeWhile sepChar = [] := by
    cases d with
    | nil => rfl
    | cons c t =>
      simp [List.takeWhile_cons, digit_not_sep (hdc c (List.mem_cons_self c t))]
  have hdwd : d.dropWhile sepChar = d := by
    cases d with
    | nil => rfl
    | cons c t =>
      simp [List.dropWhile_cons, digit_not_sep (hdc c (List.mem_cons_self c t))]
  have hA : matchAt1 ((w ++ (s0 :: ws2)) ++ d) = some ((w, d), []) := by
    simp only [matchAt1]
    rw [List.append_assoc]
    have h1 : (w ++ ((s0 :: ws2) ++ d)).takeWhile (fun c => !sepChar c) = w := by
      rw [takeWhile_append_all ((s0 :: ws2) ++ d) (fun c hc => by simp [hwc c hc])]
      simp [List.cons_append, List.takeWhile_cons, hs0]
    have h2 : (w ++ ((s0 :: ws2) ++ d)).dropWhile (fun c => !sepChar c) =
        s0 :: (ws2 ++ d) := by
      rw [dropWhile_append_all ((s0 :: ws2) ++ d) (fun c hc => by simp [hwc c hc])]
      simp [List.cons_append, List.dropWhile_cons, hs0]
    have h3 : (s0 :: (ws2 ++ d)).takeWhile sepChar = s0 :: ws2 := by
      rw [List.takeWhile_cons, if_pos hs0, takeWhile_append_all d hws2, htwd,
        List.append_nil]
    have h4 : (s0 :: (ws2 ++ d)).dropWhile sepChar = d := by
      rw [List.dropWhile_cons, if_pos hs0, dropWhile_append_all d hws2, hdwd]
    have h5 : matchNumber d = some (d, []) := by
      simp only [matchNumber]
      have htw : d.takeWhile isAsciiDigit = d := List.takeWhile_eq_self_iff.mpr hdc
      have hdw : d.dropWhile isAsciiDigit = [] := List.dropWhile_eq_nil_iff.mpr hdc
      rw [htw, hdw, if_neg hd]
      simp [matchFrac, matchUnit]
    rw [h1, h2, h3, h4, h5]
    rw [if_neg (by simp [hw])]
  obtain ⟨a, w2, rfl⟩ : ∃ a w2, w = a :: w2 := by
    cases w with
    | nil => exact absurd rfl hw
    | cons a w2 => exact ⟨a, w2, rfl⟩
  show findallAux matchAt1 (((a :: w2) ++ (s0 :: ws2)) ++ d).length
    (((a :: w2) ++ (s0 :: ws2)) ++ d) = _
  rw [show (((a :: w2) ++ (s0 :: ws2)) ++ d).length =
    (((w2 ++ (s0 :: ws2)) ++ d)).length + 1 from by simp]
  rw [show ((a :: w2) ++ (s0 :: ws2)) ++ d = a :: ((w2 ++ (s0 :: ws2)) ++ d) from rfl]
  simp only [findallAux]
  rw [show a :: ((w2 ++ (s0 :: ws2)) ++ d) = ((a :: w2) ++ (s0 :: ws2)) ++ d from rfl,
    hA]
  simp [findallAux]

/-- C3 witness: the amended theorem applied to label `"ab"`, a single
space, and digits `"12"`. -/
theorem C3_witness :
    ("ab".data ≠ ([] : List Char)) ∧ (∀ c ∈ "ab".data, sepChar c = false) ∧
    (([' '] : List Char) ≠ []) ∧ (∀ c ∈ ([' '] : List Char), isPySpace c = true) ∧
    ((['1', '2'] : List Char) ≠ []) ∧
    (∀ c ∈ (['1', '2'] : List Char), isAsciiDigit c = true) ∧
    findall1 ("ab".data ++ [' '] ++ ['1', '2']) = [("ab".data, ['1', '2'])] :=
  ⟨by decide, by decide, by decide, by decide, by decide, by decide,
   C3_amended "ab".data [' '] ['1', '2'] (by decide) (by decide) (by decide)
     (by decide) (by decide) (by decide)⟩

/-! ## C1: partial failure of one channel's fetch -/

/-- C1, counterexample.  Three individual channels where only B's fetch
fails (raises on its first request) and all sheet writes succeed: the sync
result reports `channels_processed = 3` — not 2 — and `errors = 0` — not
`>= 1` — because `get_channel_messages` swallows the `SlackApiError`
(returning the empty accumulation) and `sync_all_individual_kpi` sets
`channels_processed` to the size of the whole per-person dict, which
includes B with an empty record set, and counts only detail-write failures
as errors. -/
theorem C1_counterexample :
    (syncAllIndividualKpi [chanA, chanB, chanC]
        (fetchBFails [⟨"x1".data, 1⟩] [⟨"y1".data, 2⟩]) (fun _ => true) 100
        true).channels_processed = 3 ∧
    (syncAllIndividualKpi [chanA, chanB, chanC]
        (fetchBFails [⟨"x1".data, 1⟩] [⟨"y1".data, 2⟩]) (fun _ => true) 100
        true).errors = 0 ∧
    ¬((syncAllIndividualKpi [chanA, chanB, chanC]
        (fetchBFails [⟨"x1".data, 1⟩] [⟨"y1".data, 2⟩]) (fun _ => true) 100
        true).channels_processed = 2 ∧
      1 ≤ (syncAllIndividualKpi [chanA, chanB, chanC]
        (fetchBFails [⟨"x1".data, 1⟩] [⟨"y1".data, 2⟩]) (fun _ => true) 100
        true).errors) ∧
    (getAllIndividualKpiData [chanA, chanB, chanC]
        (fetchBFails [⟨"x1".data, 1⟩] [⟨"y1".data, 2⟩]) 100).map
      (fun pm => (pm.1, pm.2.length)) = [(['A'], 1), (['B'], 0), (['C'], 1)] := by
  decide

/-- C1 (amended): for a sync over 3 target individual channels where only
B's fetch fails, the failure is swallowed: B's person appears with an
empty record set, the result reports `channels_processed = 3` and
`errors = 0` (given that the overview and detail writes succeed), and the
processing of A and C completes — their record sets are exactly the parses
of their fetched messages.  The run is indeed not aborted by B's failure,
as the claim's last part states. -/
theorem C1_amended (mA mC : List RawMsg) (writeOk : List Char → Bool)
    (hov : writeOk overviewSheetName = true)
    (hdet : ∀ p, writeOk (detailSheetNameOf p) = true) :
    getAllIndividualKpiData [chanA, chanB, chanC] (fetchBFails mA mC) 100 =
      [(['A'], parseChannelMessages chanA (mA.take 100)), (['B'], []),
       (['C'], parseChannelMessages chanC (mC.take 100))] ∧
    (syncAllIndividualKpi [chanA, chanB, chanC] (fetchBFails mA mC) writeOk 100
        true).channels_processed = 3 ∧
    (syncAllIndividualKpi [chanA, chanB, chanC] (fetchBFails mA mC) writeOk 100
        true).errors = 0 := by
  have hdata : getAllIndividualKpiData [chanA, chanB, chanC] (fetchBFails mA mC) 100 =
      [(['A'], parseChannelMessages chanA (mA.take 100)), (['B'], []),
       (['C'], parseChannelMessages chanC (mC.take 100))] := by
    simp only [getAllIndividualKpiData, getIndividualChannels, List.filter,
      getKpiDataFromChannel, getChannelMessages, fetchBFails, chanA, chanB, chanC]
    simp +decide [show extractPersonName ['個', '人', '_', 'A'] = some ['A'] from by decide,
      show extractPersonName ['個', '人', '_', 'B'] = some ['B'] from by decide,
      show extractPersonName ['個', '人', '_', 'C'] = some ['C'] from by decide,
      dictUpd]
  refine ⟨hdata, ?_, ?_⟩
  · simp only [syncAllIndividualKpi, hdata]
    rw [if_neg (by simp)]
    simp [hov]
  · simp only [syncAllIndividualKpi, hdata]
    rw [if_neg (by simp)]
    by_cases hpA : parseChannelMessages chanA (mA.take 100) = [] <;>
      by_cases hpC : parseChannelMessages chanC (mC.take 100) = [] <;>
      simp [hpA, hpC, hdet]

/-- C1 witness for the amended theorem: one message each for A and C, all
writes succeeding. -/
theorem C1_witness :
    getAllIndividualKpiData [chanA, chanB, chanC]
        (fetchBFails [⟨"x2".data, 1⟩] []) 100 =
      [(['A'], parseChannelMessages chanA ([⟨"x2".data, 1⟩].take 100)), (['B'], []),
       (['C'], parseChannelMessages chanC (([] : List RawMsg).take 100))] ∧
    (syncAllIndividualKpi [chanA, chanB, chanC] (fetchBFails [⟨"x2".data, 1⟩] [])
        (fun _ => true) 100 true).channels_processed = 3 ∧
    (syncAllIndividualKpi [chanA, chanB, chanC] (fetchBFails [⟨"x2".data, 1⟩] [])
        (fun _ => true) 100 true).errors = 0 :=
  C1_amended [⟨"x2".data, 1⟩] [] (fun _ => true) rfl (fun _ => rfl)

/-! ## C8: read-only status aggregation -/

theorem foldl_sumStep_error (rows : List (List (List Char))) :
    rows.foldl sumStep (.error ()) = .error () := by
  induction rows with
  | nil => rfl
  | cons r rs ih =>
    rw [List.foldl_cons]
    exact ih

theorem foldl_sumStep_ok :
    ∀ (rows : List (List (List Char))),
      (∀ row ∈ rows, (2 < row.length ∧ strIsDigit (row.getD 2 []) = true) →
        (row.getD 2 []).all isPyDecimal = true) →
      ∀ n, rows.foldl sumStep (.ok n) =
        .ok (n + ((rows.filter
            (fun r => decide (2 < r.length ∧ strIsDigit (r.getD 2 []) = true))).map
          (fun r => pyIntVal (r.getD 2 []))).sum) := by
  intro rows
  induction rows with
  | nil => intro _ n; simp
  | cons r rs ih =>
    intro h n
    rw [List.foldl_cons]
    by_cases hc : 2 < r.length ∧ strIsDigit (r.getD 2 []) = true
    · have hdec : (r.getD 2 []).all isPyDecimal = true :=
        h r (List.mem_cons_self r rs) hc
      have hstep : sumStep (.ok n) r = .ok (n + pyIntVal (r.getD 2 [])) := by
        simp only [sumStep, pyInt]
        rw [if_pos hc, if_pos hdec]
      rw [hstep, ih (fun row hm => h row (List.mem_cons_of_mem r hm)) _]
      rw [List.filter_cons_of_pos (by simpa using hc), List.map_cons, List.sum_cons,
        ← Nat.add_assoc]
    · have hstep : sumStep (.ok n) r = .ok n := by
        simp only [sumStep]
        rw [if_neg hc]
      rw [hstep, ih (fun row hm => h row (List.mem_cons_of_mem r hm)) n]
      rw [List.filter_cons_of_neg (by simpa using hc)]

theorem foldl_sumStep_error_of :
    ∀ (rows : List (List (List Char))),
      (∃ row ∈ rows, (2 < row.length ∧ strIsDigit (row.getD 2 []) = true) ∧
        (row.getD 2 []).all isPyDecimal = false) →
      ∀ n, rows.foldl sumStep (.ok n) = .error () := by
  intro rows
  induction rows with
  | nil =>
    rintro ⟨row, hm, _⟩ n
    exact absurd hm (by simp)
  | cons r rs ih =>
    rintro ⟨row, hm, hcond, hbad⟩ n
    rw [List.foldl_cons]
    by_cases hc : 2 < r.length ∧ strIsDigit (r.getD 2 []) = true
    · by_cases hdec : (r.getD 2 []).all isPyDecimal = true
      · have hstep : sumStep (.ok n) r = .ok (n + pyIntVal (r.getD 2 [])) := by
          simp only [sumStep, pyInt]
          rw [if_pos hc, if_pos hdec]
        rw [hstep]
        refine ih ⟨row, ?_, hcond, hbad⟩ _
        rcases List.mem_cons.mp hm with he | hm2
        · rw [he] at hbad
          rw [hdec] at hbad
          exact absurd hbad (by simp)
        · exact hm2
      · have hstep : sumStep (.ok n) r = .error () := by
          simp only [sumStep, pyInt]
          rw [if_pos hc, if_neg hdec]
        rw [hstep]
        exact foldl_sumStep_error rs
    · have hstep : sumStep (.ok n) r = .ok n := by
        simp only [sumStep]
        rw [if_neg hc]
      rw [hstep]
      refine ih ⟨row, ?_, hcond, hbad⟩ n
      rcases List.mem_cons.mp hm with he | hm2
      · exact absurd (he ▸ hcond) hc
      · exact hm2

/-- C8, counterexample.  The claim says malformed count cells are skipped
without failing, so a sheet whose data rows hold `"5"` and a malformed
cell should report `total_messages = 5`.  But Python's `isdigit` also
accepts non-decimal digit characters: for the cell `"²"`,
`"²".isdigit()` is true while `int("²")` raises `ValueError`, the
whole generator sum aborts into the surrounding `except`, and
`total_messages` is reported as its default 0 — the `"5"` row's count is
lost, contradicting both the claimed sum and the claimed
skip-without-failing behavior.  (`channels_synced` and `last_sync` were
assigned before the sum and survive.) -/
theorem C8_counterexample :
    strIsDigit ['²'] = true ∧
    (getSyncStatus (.ok [[],
        [['a'], ['b'], ['5'], ['c'], ['d'], ['t']],
        [['a'], ['b'], ['²'], ['c'], ['d'], ['u']]])).total_messages = 0 ∧
    (getSyncStatus (.ok [[],
        [['a'], ['b'], ['5'], ['c'], ['d'], ['t']],
        [['a'], ['b'], ['²'], ['c'], ['d'], ['u']]])).channels_synced = 2 ∧
    (getSyncStatus (.ok [[],
        [['a'], ['b'], ['5'], ['c'], ['d'], ['t']],
        [['a'], ['b'], ['²'], ['c'], ['d'], ['u']]])).last_sync = some ['t'] := by
  decide

/-- C8 (amended): `get_sync_status` reports `channels_synced` as the
number of data rows and `last_sync` from column 5 of the first data row
when it has at least 6 cells.  `total_messages` sums `int(row[2])` over
exactly those data rows with more than 2 cells whose count cell passes
`str.isdigit()`; rows with short or non-digit cells are skipped without
failing, and decimal digits of any script are summed (ASCII `"5"` with
full-width `"５"` gives 10).  However, when some included cell passes
`isdigit` without being decimally convertible (e.g. `"²"`), `int()`
raises, the `except` catches it, and `total_messages` is reported as 0
while the already-assigned `channels_synced` and `last_sync` are kept. -/
theorem C8_amended :
    (∀ (hdr : List (List Char)) (rows : List (List (List Char))),
      (getSyncStatus (.ok (hdr :: rows))).channels_synced = rows.length) ∧
    (∀ (hdr row : List (List Char)) (rows : List (List (List Char))),
      (getSyncStatus (.ok (hdr :: row :: rows))).last_sync =
        if 6 ≤ row.length then row.get? 5 else none) ∧
    (∀ (hdr : List (List Char)) (rows : List (List (List Char))),
      (∀ row ∈ rows, (2 < row.length ∧ strIsDigit (row.getD 2 []) = true) →
        (row.getD 2 []).all isPyDecimal = true) →
      (getSyncStatus (.ok (hdr :: rows))).total_messages =
        ((rows.filter
            (fun r => decide (2 < r.length ∧ strIsDigit (r.getD 2 []) = true))).map
          (fun r => pyIntVal (r.getD 2 []))).sum) ∧
    (∀ (hdr : List (List Char)) (rows : List (List (List Char))),
      (∃ row ∈ rows, (2 < row.length ∧ strIsDigit (row.getD 2 []) = true) ∧
        (row.getD 2 []).all isPyDecimal = false) →
      (getSyncStatus (.ok (hdr :: rows))).total_messages = 0) ∧
    (getSyncStatus (.ok [[],
        [['a'], ['b'], ['5'], ['c'], ['d'], ['t']],
        [['a'], ['b'], ['x'], ['c'], ['d'], ['u']]])).total_messages = 5 ∧
    (getSyncStatus (.ok [[],
        [['a'], ['b'], ['5'], ['c'], ['d'], ['t']],
        [['a'], ['b'], ['５'], ['c'], ['d'], ['u']]])).total_messages = 10 := by
  refine ⟨?_, ?_, ?_, ?_, by decide, by decide⟩
  · intro hdr rows
    cases rows with
    | nil => simp [getSyncStatus]
    | cons r rs =>
      cases hsum : sumCounts (r :: rs) with
      | ok t => simp [getSyncStatus, hsum]
      | error e => simp [getSyncStatus, hsum]
  · intro hdr row rows
    cases hsum : sumCounts (row :: rows) with
    | ok t => simp [getSyncStatus, hsum]
    | error e => simp [getSyncStatus, hsum]
  · intro hdr rows h
    cases rows with
    | nil => simp [getSyncStatus]
    | cons r rs =>
      simp only [getSyncStatus, List.length_cons]
      rw [if_pos (by omega)]
      have hsum : sumCounts (r :: rs) =
          .ok (0 + (((r :: rs).filter
              (fun x => decide (2 < x.length ∧ strIsDigit (x.getD 2 []) = true))).map
            (fun x => pyIntVal (x.getD 2 []))).sum) :=
        foldl_sumStep_ok (r :: rs) h 0
      simp only [List.drop_succ_cons, List.drop_zero]
      rw [hsum]
      simp
  · intro hdr rows h
    cases rows with
    | nil =>
      obtain ⟨row, hm, _⟩ := h
      exact absurd hm (by simp)
    | cons r rs =>
      simp only [getSyncStatus, List.length_cons]
      rw [if_pos (by omega)]
      have hsum : sumCounts (r :: rs) = .error () :=
        foldl_sumStep_error_of (r :: rs) h 0
      simp only [List.drop_succ_cons, List.drop_zero]
      rw [hsum]

/-- C8 witness: the amended theorem's sum characterization applied to the
`"5"`/`"x"` sheet, and its error path applied to a sheet with a `"²"`
cell. -/
theorem C8_witness :
    (getSyncStatus (.ok [[],
        [['a'], ['b'], ['5'], ['c'], ['d'], ['t']],
        [['a'], ['b'], ['x'], ['c'], ['d'], ['u']]])).total_messages =
      (([[['a'], ['b'], ['5'], ['c'], ['d'], ['t']],
         [['a'], ['b'], ['x'], ['c'], ['d'], ['u']]].filter
          (fun r => decide (2 < r.length ∧ strIsDigit (r.getD 2 []) = true))).map
        (fun r => pyIntVal (r.getD 2 []))).sum ∧
    (getSyncStatus (.ok [[],
        [['a'], ['b'], ['²'], ['c'], ['d'], ['t']]])).total_messages = 0 :=
  ⟨C8_amended.2.2.1 []
     [[['a'], ['b'], ['5'], ['c'], ['d'], ['t']],
      [['a'], ['b'], ['x'], ['c'], ['d'], ['u']]] (by decide),
   C8_amended.2.2.2.1 [] [[['a'], ['b'], ['²'], ['c'], ['d'], ['t']]]
     ⟨[['a'], ['b'], ['²'], ['c'], ['d'], ['t']], by decide, by decide, by decide⟩⟩

/-! ## C4: the extractor is total and its values are verbatim substrings -/

theorem matchFrac_append (s : List Char) : (matchFrac s).1 ++ (matchFrac s).2 = s := by
  cases s with
  | nil => rfl
  | cons c t =>
    simp only [matchFrac]
    by_cases hc : c = '.'
    · rw [if_pos hc]
      by_cases hfs : t.takeWhile isAsciiDigit = []
      · simp [hfs]
      · simp only [hfs, if_neg hfs]
        rw [hc]
        simp [List.takeWhile_append_dropWhile]
    · rw [if_neg hc]
      rfl

theorem matchUnit_append (s : List Char) : (matchUnit s).1 ++ (matchUnit s).2 = s := by
  cases s with
  | nil => rfl
  | cons c t =>
    simp only [matchUnit]
    by_cases hc : c = '%' ∨ c = '件' ∨ c = '円' ∨ c = '人' ∨ c = '回'
    · rw [if_pos hc]; rfl
    · rw [if_neg hc]; rfl

theorem matchNumber_append {s v r : List Char} (h : matchNumber s = some (v, r)) :
    v ++ r = s := by
  simp only [matchNumber] at h
  by_cases hds : s.takeWhile isAsciiDigit = []
  · rw [if_pos hds] at h
    exact absurd h (by simp)
  · rw [if_neg hds] at h
    have h2 := Option.some.inj h
    rw [Prod.ext_iff] at h2
    obtain ⟨hv, hr⟩ := h2
    dsimp only at hv hr
    calc v ++ r
        = (s.takeWhile isAsciiDigit ++ (matchFrac (s.dropWhile isAsciiDigit)).1 ++
            (matchUnit (matchFrac (s.dropWhile isAsciiDigit)).2).1) ++
          (matchUnit (matchFrac (s.dropWhile isAsciiDigit)).2).2 := by rw [hv, hr]
      _ = s.takeWhile isAsciiDigit ++ ((matchFrac (s.dropWhile isAsciiDigit)).1 ++
            ((matchUnit (matchFrac (s.dropWhile isAsciiDigit)).2).1 ++
             (matchUnit (matchFrac (s.dropWhile isAsciiDigit)).2).2)) := by
          simp [List.append_assoc]
      _ = s.takeWhile isAsciiDigit ++ ((matchFrac (s.dropWhile isAsciiDigit)).1 ++
            (matchFrac (s.dropWhile isAsciiDigit)).2) := by rw [matchUnit_append]
      _ = s.takeWhile isAsciiDigit ++ s.dropWhile isAsciiDigit := by rw [matchFrac_append]
      _ = s := List.takeWhile_append_dropWhile _ _

theorem matchAt1_spec {s k v r : List Char} (h : matchAt1 s = some ((k, v), r)) :
    v <:+: s ∧ r <:+ s := by
  simp only [matchAt1] at h
  by_cases hc : s.takeWhile (fun c => !sepChar c) = [] ∨
      (s.dropWhile (fun c => !sepChar c)).takeWhile sepChar = []
  · rw [if_pos hc] at h
    exact absurd h (by simp)
  · rw [if_neg hc] at h
    cases hmn : matchNumber ((s.dropWhile (fun c => !sepChar c)).dropWhile sepChar) with
    | none => rw [hmn] at h; exact absurd h (by simp)
    | some pr =>
      obtain ⟨v0, r0⟩ := pr
      rw [hmn] at h
      have h2 := Option.some.inj h
      rw [Prod.ext_iff, Prod.ext_iff] at h2
      obtain ⟨⟨_, hv⟩, hr⟩ := h2
      dsimp only at hv hr
      have happ := matchNumber_append hmn
      have hs2 : (s.dropWhile (fun c => !sepChar c)).dropWhile sepChar <:+ s :=
        (List.dropWhile_suffix _).trans (List.dropWhile_suffix _)
      constructor
      · rw [← hv]
        exact (List.IsPrefix.isInfix ⟨r0, happ⟩).trans hs2.isInfix
      · rw [← hr]
        exact (show r0 <:+ _ from ⟨v0, happ⟩).trans hs2

theorem matchAt2_spec {s k v r : List Char} (h : matchAt2 s = some ((k, v), r)) :
    v <:+: s ∧ r <:+ s := by
  cases s with
  | nil => exact absurd h (by simp [matchAt2])
  | cons c0 t =>
    simp only [matchAt2] at h
    by_cases hc0 : c0 = '【'
    · rw [if_pos hc0] at h
      by_cases hg : t.takeWhile (fun c => c ≠ '】') = []
      · rw [if_pos hg] at h
        exact absurd h (by simp)
      · rw [if_neg hg] at h
        cases ht1 : t.dropWhile (fun c => c ≠ '】') with
        | nil => rw [ht1] at h; exact absurd h (by simp)
        | cons c1 t2 =>
          rw [ht1] at h
          dsimp only at h
          by_cases hc1 : c1 = '】'
          · rw [if_pos hc1] at h
            cases hmn : matchNumber (t2.dropWhile isPySpace) with
            | none => rw [hmn] at h; exact absurd h (by simp)
            | some pr =>
              obtain ⟨v0, r0⟩ := pr
              rw [hmn] at h
              have h2 := Option.some.inj h
              rw [Prod.ext_iff, Prod.ext_iff] at h2
              obtain ⟨⟨_, hv⟩, hr⟩ := h2
              dsimp only at hv hr
              have happ := matchNumber_append hmn
              have hchain : t2.dropWhile isPySpace <:+ c0 :: t := by
                refine (List.dropWhile_suffix _).trans ?_
                refine (List.suffix_cons c1 t2).trans ?_
                rw [← ht1]
                exact (List.dropWhile_suffix _).trans (List.suffix_cons c0 t)
              constructor
              · rw [← hv]
                exact (List.IsPrefix.isInfix ⟨r0, happ⟩).trans hchain.isInfix
              · rw [← hr]
                exact (show r0 <:+ _ from ⟨v0, happ⟩).trans hchain
          · rw [if_neg hc1] at h
            exact absurd h (by simp)
    · rw [if_neg hc0] at h
      exact absurd h (by simp)

theorem matchKeyword_rest {s k0 t : List Char} (h : matchKeyword s = some (k0, t)) :
    t = s.drop 2 := by
  simp only [matchKeyword, List.foldr_cons, List.foldr_nil] at h
  repeat' split at h
  all_goals
    first
      | (have h2 := Option.some.inj h
         rw [Prod.ext_iff] at h2
         exact h2.2.symm)
      | simp at h

theorem matchAt3_spec {s k v r : List Char} (h : matchAt3 s = some ((k, v), r)) :
    v <:+: s ∧ r <:+ s := by
  simp only [matchAt3] at h
  cases hkw : matchKeyword s with
  | none => rw [hkw] at h; exact absurd h (by simp)
  | some pr =>
    obtain ⟨k0, t⟩ := pr
    rw [hkw] at h
    dsimp only at h
    have ht : t = s.drop 2 := matchKeyword_rest hkw
    have htsuffix : t <:+ s := ht ▸ List.drop_suffix 2 s
    have ht1 : (match t with
        | c :: rest => if c = '数' ∨ c = '件' ∨ c = '率' then rest else t
        | [] => ([] : List Char)) <:+ t := by
      cases t with
      | nil => exact List.nil_suffix
      | cons c rest =>
        by_cases hc : c = '数' ∨ c = '件' ∨ c = '率'
        · simpa [hc] using List.suffix_cons c rest
        · simp [hc]
    cases hmn : matchNumber ((((match t with
        | c :: rest => if c = '数' ∨ c = '件' ∨ c = '率' then rest else t
        | [] => ([] : List Char))).dropWhile isPySpace).dropWhile sepChar) with
    | none => rw [hmn] at h; exact absurd h (by simp)
    | some pr2 =>
      obtain ⟨v0, r0⟩ := pr2
      rw [hmn] at h
      have h2 := Option.some.inj h
      rw [Prod.ext_iff, Prod.ext_iff] at h2
      obtain ⟨⟨_, hv⟩, hr⟩ := h2
      dsimp only at hv hr
      have happ := matchNumber_append hmn
      have hchain : (((match t with
          | c :: rest => if c = '数' ∨ c = '件' ∨ c = '率' then rest else t
          | [] => ([] : List Char))).dropWhile isPySpace).dropWhile sepChar <:+ s :=
        ((List.dropWhile_suffix _).trans ((List.dropWhile_suffix _).trans ht1)).trans
          htsuffix
      constructor
      · rw [← hv]
        exact (List.IsPrefix.isInfix ⟨r0, happ⟩).trans hchain.isInfix
      · rw [← hr]
        exact (show r0 <:+ _ from ⟨v0, happ⟩).trans hchain

theorem findallAux_value_sub
    (m : List Char → Option ((List Char × List Char) × List Char))
    (hm : ∀ s k v r, m s = some ((k, v), r) → v <:+: s ∧ r <:+ s) :
    ∀ (fuel : Nat) (s : List Char) (kv : List Char × List Char),
      kv ∈ findallAux m fuel s → kv.2 <:+: s := by
  intro fuel
  induction fuel with
  | zero =>
    intro s kv h
    cases s with
    | nil => exact absurd h (by simp [findallAux])
    | cons c rest => exact absurd h (by simp [findallAux])
  | succ f ih =>
    intro s kv h
    cases s with
    | nil => exact absurd h (by simp [findallAux])
    | cons c rest =>
      simp only [findallAux] at h
      cases hm2 : m (c :: rest) with
      | none =>
        rw [hm2] at h
        exact (ih rest kv h).trans (List.suffix_cons c rest).isInfix
      | some pr =>
        obtain ⟨⟨k0, v0⟩, rest2⟩ := pr
        rw [hm2] at h
        rcases List.mem_cons.mp h with he | hrec
        · rw [he]
          exact (hm _ _ _ _ hm2).1
        · exact (ih rest2 kv hrec).trans (hm _ _ _ _ hm2).2.isInfix

theorem pyStrip_result_sub (s : List Char) : pyStrip s <:+: s := by
  unfold pyStrip
  have h1 : s.dropWhile isPySpace <:+ s := List.dropWhile_suffix _
  have h0 : ((s.dropWhile isPySpace).reverse.dropWhile isPySpace) <:+
      (s.dropWhile isPySpace).reverse := List.dropWhile_suffix _
  have h2 : ((s.dropWhile isPySpace).reverse.dropWhile isPySpace).reverse <+:
      s.dropWhile isPySpace :=
    List.reverse_suffix.mp (by simpa using h0)
  exact h2.isInfix.trans h1.isInfix

theorem dictUpd_snd_mem {β : Type} {k : List Char} {v : β}
    {d : List (List Char × β)} {x : β}
    (h : x ∈ (dictUpd k v d).map Prod.snd) : x = v ∨ x ∈ d.map Prod.snd := by
  unfold dictUpd at h
  by_cases hc : d.any (fun p => decide (p.1 = k))
  · rw [if_pos hc, List.map_map] at h
    obtain ⟨p, hpmem, he⟩ := List.mem_map.mp h
    by_cases hpk : p.1 = k
    · left
      rw [← he]
      simp [hpk]
    · right
      refine List.mem_map.mpr ⟨p, hpmem, ?_⟩
      rw [← he]
      simp [hpk]
  · rw [if_neg hc, List.map_append] at h
    rcases List.mem_append.mp h with hin | hone
    · exact Or.inr hin
    · left
      simpa using hone

theorem foldl_dictUpd_values :
    ∀ (ms : List (List Char × List Char)) (d0 : List (List Char × List Char))
      (kv : List Char × List Char),
      kv ∈ ms.foldl (fun d p => dictUpd (pyStrip p.1) (pyStrip p.2) d) d0 →
      kv.2 ∈ d0.map Prod.snd ∨ ∃ p ∈ ms, kv.2 = pyStrip p.2 := by
  intro ms
  induction ms with
  | nil =>
    intro d0 kv h
    exact Or.inl (List.mem_map_of_mem Prod.snd h)
  | cons q qs ih =>
    intro d0 kv h
    rw [List.foldl_cons] at h
    rcases ih _ kv h with h1 | ⟨p, hp, he⟩
    · rcases dictUpd_snd_mem h1 with he | hin
      · exact Or.inr ⟨q, List.mem_cons_self q qs, he⟩
      · exact Or.inl hin
    · exact Or.inr ⟨p, List.mem_cons_of_mem q hp, he⟩

/-- C4: for every input text, `_extract_kpi_values` terminates and returns
a finite association list (the function is total by construction — it
never raises), and every value in the mapping is a verbatim contiguous
substring of the input: each stored value is `value.strip()` of a matched
slice, and stripping an infix yields an infix.  No numeric coercion is
applied — the values stay the matched character sequences. -/
theorem C4_values_verbatim (t : List Char) (kv : List Char × List Char)
    (h : kv ∈ extractKpiValues t) : kv.2 <:+: t := by
  unfold extractKpiValues at h
  rcases foldl_dictUpd_values _ [] kv h with h0 | ⟨p, hp, he⟩
  · exact absurd h0 (by simp)
  · rw [he]
    have hinf : p.2 <:+: t := by
      rcases List.mem_append.mp hp with hp12 | hp3
      · rcases List.mem_append.mp hp12 with hp1 | hp2
        · exact findallAux_value_sub matchAt1 (fun s k v r hh => matchAt1_spec hh)
            t.length t p hp1
        · exact findallAux_value_sub matchAt2 (fun s k v r hh => matchAt2_spec hh)
            t.length t p hp2
      · exact findallAux_value_sub matchAt3 (fun s k v r hh => matchAt3_spec hh)
          t.length t p hp3
    exact (pyStrip_result_sub p.2).trans hinf

/-- C4 witness: on `"架電50件"` the extractor returns the pair
`("架電", "50件")` and the value is a substring of the input. -/
theorem C4_witness :
    (("架電".data, "50件".data) ∈ extractKpiValues "架電50件".data) ∧
    "50件".data <:+: "架電50件".data :=
  ⟨by decide,
   C4_values_verbatim "架電50件".data ("架電".data, "50件".data) (by decide)⟩

end KPI
